import Mathlib

/-!
Verification of the appcast generator in `.github/scripts/generate_appcast.py`.

The script is embedded shallowly: text is a `List Char`, the regex substitution
passes of `markdown_to_html` are modelled as explicit left-to-right scanners
with the exact lazy/greedy semantics of the patterns used, and the feed
assembler `generate_appcast_xml` becomes a pure function from the fetched
release list (network fetching is replaced by the list parameter) to the
emitted warning lines and XML lines, with Python exceptions modelled as
`Except` errors.
-/

namespace XKeyAppcast

/-- Newline character, written by code point to keep literals unambiguous. -/
def nlc : Char := Char.ofNat 10

/-- Backtick character (code point 96). -/
def btc : Char := Char.ofNat 96

/-- Whether `p` is a prefix of the second list (Python `str.startswith`). -/
def begins : List Char → List Char → Bool
  | [], _ => true
  | _ :: _, [] => false
  | p :: ps, c :: cs => p == c && begins ps cs

/-- Whether `p` occurs as a contiguous substring (Python `p in s`). -/
def containsSub (p : List Char) : List Char → Bool
  | [] => begins p []
  | c :: cs => begins p (c :: cs) || containsSub p cs

/-- Whether `p` is a suffix of `l` (Python `str.endswith`). -/
def endsWith (p l : List Char) : Bool := begins p.reverse l.reverse

/-- Characters stripped by Python `str.strip()` with no argument. -/
def isPySpace (c : Char) : Bool :=
  c == ' ' || c == Char.ofNat 9 || c == nlc || c == Char.ofNat 13 ||
  c == Char.ofNat 11 || c == Char.ofNat 12

/-- Python `str.strip()`: drop whitespace from both ends. -/
def pyStrip (l : List Char) : List Char :=
  ((l.dropWhile isPySpace).reverse.dropWhile isPySpace).reverse

/-- Python `str.split('\n')`. -/
def splitNL : List Char → List (List Char)
  | [] => [[]]
  | c :: rest =>
    match splitNL rest with
    | [] => [[c]]
    | h :: t => if c == nlc then [] :: h :: t else (c :: h) :: t

/-- Python `'\n'.join(...)`. -/
def joinNL : List (List Char) → List Char
  | [] => []
  | [l] => l
  | l :: rest => l ++ nlc :: joinNL rest

/-- One line of the header substitution `re.sub(r'^#{n} (.*?)$', ..., MULTILINE)`:
with `MULTILINE` and a lazy group pinned to the line end, a line starting with
`n` hashes and a space is rewritten to an `hn` element around the rest. -/
def headerLine (n : Nat) (line : List Char) : List Char :=
  if begins (List.replicate n '#' ++ [' ']) line then
    "<h".data ++ Nat.toDigits 10 n ++ ">".data ++ line.drop (n + 1) ++
      "</h".data ++ Nat.toDigits 10 n ++ ">".data
  else line

/-- Header substitution pass over the whole text, line by line. -/
def headerPass (n : Nat) (l : List Char) : List Char :=
  joinNL ((splitNL l).map (headerLine n))

/-- Search for the lazy close of a one-delimiter inline pattern `d(.+?)d`:
returns the shortest non-empty newline-free interior together with the text
after the closing delimiter. -/
def findClose (d : List Char) : List Char → Option (List Char × List Char)
  | [] => none
  | c :: rest =>
    if c == nlc then none
    else if begins d rest then some ([c], rest.drop d.length)
    else
      match findClose d rest with
      | some (i, r) => some (c :: i, r)
      | none => none

/-- Global substitution of the inline pattern `d(.+?)d` by `pre ++ group ++ post`,
scanning left to right exactly as `re.sub` does; `fuel` is the remaining input
length, enough because every step consumes at least one character. -/
def subDelim (d pre post : List Char) : Nat → List Char → List Char
  | 0, l => l
  | _ + 1, [] => []
  | fuel + 1, c :: rest =>
    if begins d (c :: rest) then
      match findClose d ((c :: rest).drop d.length) with
      | some (i, r) => pre ++ i ++ post ++ subDelim d pre post fuel r
      | none => c :: subDelim d pre post fuel rest
    else c :: subDelim d pre post fuel rest

/-- Run `subDelim` with sufficient fuel. -/
def subAll (d pre post l : List Char) : List Char := subDelim d pre post l.length l

/-- Backtracking close search for `\[(.+?)\]\((.+?)\)`: the label is extended
lazily; at each candidate `](`, the URL is searched lazily for `)`, and on
failure the label keeps growing, as the regex engine would backtrack. -/
def linkClose : List Char → Option (List Char × List Char × List Char)
  | [] => none
  | c :: rest =>
    if c == nlc then none
    else if begins [']', '('] rest then
      match findClose [')'] (rest.drop 2) with
      | some (y, r) => some ([c], y, r)
      | none =>
        match linkClose rest with
        | some (x, y, r) => some (c :: x, y, r)
        | none => none
    else
      match linkClose rest with
      | some (x, y, r) => some (c :: x, y, r)
      | none => none

/-- Global substitution of `\[(.+?)\]\((.+?)\)` by `<a href="url">label</a>`. -/
def subLink : Nat → List Char → List Char
  | 0, l => l
  | _ + 1, [] => []
  | fuel + 1, c :: rest =>
    if c == '[' then
      match linkClose rest with
      | some (x, y, r) =>
        "<a href=\"".data ++ y ++ "\">".data ++ x ++ "</a>".data ++ subLink fuel r
      | none => c :: subLink fuel rest
    else c :: subLink fuel rest

/-- Python `\w` on ASCII input: letters, digits, underscore. -/
def isWordChar (c : Char) : Bool := c.isAlphanum || c == '_'

/-- Lazy close search for the `DOTALL` group of ```` ```[\w]*\n(.*?)\n``` ````:
the interior may be empty and may span newlines; it ends at the earliest
newline followed by three backticks. -/
def cbClose : List Char → Option (List Char × List Char)
  | [] => none
  | c :: rest =>
    if begins [nlc, btc, btc, btc] (c :: rest) then some ([], (c :: rest).drop 4)
    else
      match cbClose rest with
      | some (i, r) => some (c :: i, r)
      | none => none

/-- Open of a fenced block at the current position: three backticks, a greedy
run of word characters (the ignored language tag), then a newline. -/
def cbOpen (l : List Char) : Option (List Char) :=
  if begins [btc, btc, btc] l then
    match (l.drop 3).dropWhile isWordChar with
    | c :: r => if c == nlc then some r else none
    | [] => none
  else none

/-- Global substitution of fenced code blocks by `<pre><code>…</code></pre>`. -/
def subCB : Nat → List Char → List Char
  | 0, l => l
  | _ + 1, [] => []
  | fuel + 1, c :: rest =>
    match cbOpen (c :: rest) with
    | some afterOpen =>
      match cbClose afterOpen with
      | some (i, r) => "<pre><code>".data ++ i ++ "</code></pre>".data ++ subCB fuel r
      | none => c :: subCB fuel rest
    | none => c :: subCB fuel rest

/-- Test for `re.match(r'^[\*\-\+] ', line)`: bullet character then a space. -/
def isULline (l : List Char) : Bool :=
  match l with
  | a :: b :: _ => (a == '*' || a == '-' || a == '+') && b == ' '
  | _ => false

/-- Test-and-remove for `re.match(r'^\d+\. ', line)`: one or more digits, a
period, a space; returns the rest of the line on a match. -/
def olRest (l : List Char) : Option (List Char) :=
  match l with
  | c :: _ =>
    if c.isDigit then
      match l.dropWhile Char.isDigit with
      | '.' :: ' ' :: r => some r
      | _ => none
    else none
  | [] => none

/-- Line-by-line list pass of `markdown_to_html`: the `for line in lines` loop
with its `in_ul` / `in_ol` flags, producing the `result` list of lines. -/
def processLines : List (List Char) → Bool → Bool → List (List Char)
  | [], inUl, inOl =>
    (if inUl then ["</ul>".data] else []) ++ (if inOl then ["</ol>".data] else [])
  | line :: rest, inUl, inOl =>
    if isULline line then
      (if inUl then [] else ["<ul>".data]) ++
        ("<li>".data ++ (pyStrip (line.drop 2) ++ "</li>".data)) :: processLines rest true inOl
    else
      match olRest line with
      | some r =>
        (if inOl then [] else ["<ol>".data]) ++
          ("<li>".data ++ (pyStrip r ++ "</li>".data)) :: processLines rest inUl true
      | none =>
        (if inUl then ["</ul>".data] else []) ++
          (if inOl then ["</ol>".data] else []) ++
          (if (pyStrip line).isEmpty then [] else ["<p>".data ++ (line ++ "</p>".data)]) ++
          processLines rest false false

/-- The whole `markdown_to_html`: header passes (h3, h2, h1), the five
emphasis substitutions in source order, links, fenced code blocks, inline
code, then the list/paragraph pass joined with newlines. -/
def markdown_to_html (l : List Char) : List Char :=
  let h := headerPass 3 l
  let h := headerPass 2 h
  let h := headerPass 1 h
  let h := subAll "***".data "<strong><em>".data "</em></strong>".data h
  let h := subAll "**".data "<strong>".data "</strong>".data h
  let h := subAll "*".data "<em>".data "</em>".data h
  let h := subAll "__".data "<strong>".data "</strong>".data h
  let h := subAll "_".data "<em>".data "</em>".data h
  let h := subLink h.length h
  let h := subCB h.length h
  let h := subAll [btc] "<code>".data "</code>".data h
  joinNL (processLines (splitNL h) false false)

/-- Result of a successful `datetime.fromisoformat`: a naive or offset-aware
datetime; `tzMicro` is the signed UTC offset in microseconds, absent for a
naive value. -/
structure PyDateTime where
  year : Nat
  month : Nat
  day : Nat
  hour : Nat
  minute : Nat
  second : Nat
  microsecond : Nat
  tzMicro : Option Int
deriving DecidableEq

/-- Numeric value of a digit character. -/
def dv (c : Char) : Nat := c.toNat - 48

/-- Gregorian leap-year rule. -/
def isLeap (y : Nat) : Bool := y % 4 == 0 && (y % 100 != 0 || y % 400 == 0)

/-- Days in a month. -/
def daysInMonth (y m : Nat) : Nat :=
  if m == 2 then (if isLeap y then 29 else 28)
  else if m == 4 || m == 6 || m == 9 || m == 11 then 30
  else 31

/-- The `YYYY-MM-DD` date prefix of `fromisoformat`: exactly ten characters,
four-digit year, dash, two-digit month, dash, two-digit day. -/
def parseDate (l : List Char) : Option (Nat × Nat × Nat) :=
  match l with
  | [y1, y2, y3, y4, '-', m1, m2, '-', d1, d2] =>
    if y1.isDigit && y2.isDigit && y3.isDigit && y4.isDigit &&
        m1.isDigit && m2.isDigit && d1.isDigit && d2.isDigit then
      some (1000 * dv y1 + 100 * dv y2 + 10 * dv y3 + dv y4,
        10 * dv m1 + dv m2, 10 * dv d1 + dv d2)
    else none
  | _ => none

/-- The fractional-second part: exactly three or six digits, scaled to
microseconds as `fromisoformat` does. -/
def parseFrac (l : List Char) : Option Nat :=
  if l.length = 3 && l.all Char.isDigit then
    some (1000 * (100 * dv (l.getD 0 '0') + 10 * dv (l.getD 1 '0') + dv (l.getD 2 '0')))
  else if l.length = 6 && l.all Char.isDigit then
    some (100000 * dv (l.getD 0 '0') + 10000 * dv (l.getD 1 '0') + 1000 * dv (l.getD 2 '0') +
      100 * dv (l.getD 3 '0') + 10 * dv (l.getD 4 '0') + dv (l.getD 5 '0'))
  else none

/-- The `HH[:MM[:SS[.fff[fff]]]]` parser (`_parse_hh_mm_ss_ff`): two-digit
components separated by colons, a fraction only after full `HH:MM:SS`,
returning hours, minutes, seconds and microseconds. -/
def parseHMSFF (l : List Char) : Option (Nat × Nat × Nat × Nat) :=
  match l with
  | a :: b :: rest =>
    if a.isDigit && b.isDigit then
      let hh := 10 * dv a + dv b
      match rest with
      | [] => some (hh, 0, 0, 0)
      | ':' :: rest2 =>
        match rest2 with
        | c :: d :: rest3 =>
          if c.isDigit && d.isDigit then
            let mm := 10 * dv c + dv d
            match rest3 with
            | [] => some (hh, mm, 0, 0)
            | ':' :: rest4 =>
              match rest4 with
              | e :: f :: rest5 =>
                if e.isDigit && f.isDigit then
                  let ss := 10 * dv e + dv f
                  match rest5 with
                  | [] => some (hh, mm, ss, 0)
                  | '.' :: fr => (parseFrac fr).map (fun us => (hh, mm, ss, us))
                  | _ => none
                else none
              | _ => none
            | _ => none
          else none
        | _ => none
      | _ => none
    else none
  | _ => none

/-- Split a text at the first occurrence of a character. -/
def splitAtChar (c : Char) : List Char → Option (List Char × List Char)
  | [] => none
  | x :: xs =>
    if x == c then some ([], xs)
    else (splitAtChar c xs).map (fun p => (x :: p.1, p.2))

/-- The offset split of `fromisoformat`'s time parser: the time string is cut
at the first `-`, or, failing that, the first `+`, exactly as the
implementation searches for the sign. -/
def splitSign (l : List Char) : Option (List Char × Char × List Char) :=
  match splitAtChar '-' l with
  | some (a, b) => some (a, '-', b)
  | none =>
    match splitAtChar '+' l with
    | some (a, b) => some (a, '+', b)
    | none => none

/-- An offset string must be `HH:MM`, `HH:MM:SS` or `HH:MM:SS.ffffff`
(lengths 5, 8 or 15), read with the same component parser. -/
def parseTZstr (l : List Char) : Option (Nat × Nat × Nat × Nat) :=
  if l.length = 5 || l.length = 8 || l.length = 15 then parseHMSFF l else none

/-- Date-field validation done by the `datetime` constructor. -/
def validDate (y mo d : Nat) : Bool :=
  1 ≤ y && 1 ≤ mo && mo ≤ 12 && 1 ≤ d && d ≤ daysInMonth y mo

/-- Time-field validation done by the `datetime` constructor. -/
def validTime (h m s us : Nat) : Bool :=
  h ≤ 23 && m ≤ 59 && s ≤ 59 && us ≤ 999999

/-- Modelled `datetime.fromisoformat`, following the grammar documented since
Python 3.7: `YYYY-MM-DD[*HH[:MM[:SS[.fff[fff]]]][+HH:MM[:SS[.ffffff]]]]` — a
ten-character date; then optionally one separator character (never inspected,
as in the implementation) and a required time whose components the
implementation splits from an optional offset at the first sign character;
the offset must stay strictly below 24 hours, as `datetime.timezone`
requires. -/
def fromisoformat (l : List Char) : Option PyDateTime :=
  match parseDate (l.take 10) with
  | none => none
  | some (y, mo, d) =>
    if !validDate y mo d then none
    else if l.length = 10 then some ⟨y, mo, d, 0, 0, 0, 0, none⟩
    else if l.length = 11 then none
    else
      match splitSign (l.drop 11) with
      | none =>
        match parseHMSFF (l.drop 11) with
        | none => none
        | some (h, mi, s, us) =>
          if validTime h mi s us then some ⟨y, mo, d, h, mi, s, us, none⟩ else none
      | some (timestr, sgn, tzstr) =>
        match parseHMSFF timestr, parseTZstr tzstr with
        | some (h, mi, s, us), some (th, tm, ts, tus) =>
          if validTime h mi s us then
            let mag : Nat := ((th * 3600 + tm * 60 + ts) * 1000000 + tus)
            let total : Int := (if sgn == '-' then -1 else 1) * (mag : Int)
            if mag < 86400000000 then some ⟨y, mo, d, h, mi, s, us, some total⟩ else none
          else none
        | _, _ => none

/-- Cumulative day counts before each month in a non-leap year. -/
def monthCum (m : Nat) : Nat :=
  [0, 31, 59, 90, 120, 151, 181, 212, 243, 273, 304, 334].getD (m - 1) 0

/-- Day of year, counting from 1. -/
def dayOfYear (y m d : Nat) : Nat :=
  monthCum m + d + (if 2 < m && isLeap y then 1 else 0)

/-- Proleptic-Gregorian day number with `0001-01-01` as day 0 (a Monday). -/
def rataDie (y m d : Nat) : Nat :=
  365 * (y - 1) + ((y - 1) / 4 - (y - 1) / 100 + (y - 1) / 400) + dayOfYear y m d - 1

/-- Abbreviated weekday names as `strftime('%a')` prints them, Monday first. -/
def wdNames : List (List Char) :=
  ["Mon".data, "Tue".data, "Wed".data, "Thu".data, "Fri".data, "Sat".data, "Sun".data]

/-- Abbreviated month names as `strftime('%b')` prints them. -/
def monNames : List (List Char) :=
  ["Jan".data, "Feb".data, "Mar".data, "Apr".data, "May".data, "Jun".data,
   "Jul".data, "Aug".data, "Sep".data, "Oct".data, "Nov".data, "Dec".data]

/-- Zero-padded two-digit decimal rendering. -/
def pad2 (n : Nat) : List Char :=
  if n < 10 then '0' :: Nat.toDigits 10 n else Nat.toDigits 10 n

/-- Zero-padded four-digit decimal rendering. -/
def pad4 (n : Nat) : List Char :=
  List.replicate (4 - (Nat.toDigits 10 n).length) '0' ++ Nat.toDigits 10 n

/-- Zero-padded six-digit decimal rendering. -/
def pad6 (n : Nat) : List Char :=
  List.replicate (6 - (Nat.toDigits 10 n).length) '0' ++ Nat.toDigits 10 n

/-- Rendering of `strftime('%z')`: empty for a naive datetime, otherwise sign
and absolute offset as `HHMM`, with `SS` appended when the offset has seconds
and `.ffffff` when it has microseconds, as `strftime` prints it. -/
def tzTxt : Option Int → List Char
  | none => []
  | some t =>
    let a := t.natAbs
    let us := a % 1000000
    let totalSec := a / 1000000
    (if t < 0 then '-' else '+') ::
      (pad2 (totalSec / 3600) ++ pad2 (totalSec / 60 % 60) ++
        (if us ≠ 0 then pad2 (totalSec % 60) ++ '.' :: pad6 us
         else if totalSec % 60 ≠ 0 then pad2 (totalSec % 60)
         else []))

/-- Modelled `strftime('%a, %d %b %Y %H:%M:%S %z')`. -/
def strftimeRFC822 (dt : PyDateTime) : List Char :=
  wdNames.getD (rataDie dt.year dt.month dt.day % 7) [] ++ ", ".data ++
  pad2 dt.day ++ [' '] ++ monNames.getD (dt.month - 1) [] ++ [' '] ++ pad4 dt.year ++
  [' '] ++ pad2 dt.hour ++ [':'] ++ pad2 dt.minute ++ [':'] ++ pad2 dt.second ++
  [' '] ++ tzTxt dt.tzMicro

/-- The replacement text for a `Z`. -/
def utcOff : List Char := "+00:00".data

/-- Python `iso_date.replace('Z', '+00:00')`: every occurrence of `Z` is
replaced, not only a suffix. -/
def replaceZ : List Char → List Char
  | [] => []
  | c :: rest => if c == 'Z' then utcOff ++ replaceZ rest else c :: replaceZ rest

/-- The source's `format_rfc822_date`: replace the `Z`s, parse, format;
`none` models the `ValueError` the caller does not catch. -/
def format_rfc822_date (l : List Char) : Option (List Char) :=
  (fromisoformat (replaceZ l)).map strftimeRFC822

/-- Modelled from the spec's words: replace only a literal `Z` suffix with
`+00:00` before parsing. -/
def replaceZsuffix (l : List Char) : List Char :=
  if l.getLast? = some 'Z' then l.dropLast ++ utcOff else l

/-- The spec's description of the date formatter: suffix replacement, then
parse, then RFC-822 rendering. -/
def spec_format_rfc822_date (l : List Char) : Option (List Char) :=
  (fromisoformat (replaceZsuffix l)).map strftimeRFC822

/-- Release asset record (`name`, `browser_download_url`, `size`). -/
structure Asset where
  name : List Char
  browser_download_url : List Char
  size : Nat
deriving DecidableEq

/-- Release record with the fields the script reads; `published_at` and
`created_at` are optional as in the API payload. -/
structure Release where
  tag_name : List Char
  body : List Char
  draft : Bool
  prerelease : Bool
  published_at : Option (List Char)
  created_at : Option (List Char)
  html_url : List Char
  assets : List Asset
deriving DecidableEq

/-- Name test of the first loop of `find_dmg_asset`. -/
def isXKeyName (a : Asset) : Bool := a.name == "XKey.dmg".data

/-- Name test of the fallback loop of `find_dmg_asset`: ends with `.dmg` and
does not contain `IM`. -/
def fallbackOK (a : Asset) : Bool :=
  endsWith ".dmg".data a.name && !containsSub "IM".data a.name

/-- The source's `find_dmg_asset`: first asset named exactly `XKey.dmg`, else
first `.dmg` asset without `IM` in its name, else `none`. -/
def find_dmg_asset (assets : List Asset) : Option Asset :=
  match assets.find? isXKeyName with
  | some a => some a
  | none => assets.find? fallbackOK

/-- The fixed link appended after non-empty rendered notes. -/
def seeMoreLink (url : List Char) : List Char :=
  nlc :: ("<p><a href=\"".data ++ url ++ "\">Xem chi tiết trên GitHub</a></p>".data)

/-- Notes rendering of the assembler: render the body when truthy, then append
the fixed link when the rendered HTML is truthy. -/
def renderNotes (body url : List Char) : List Char :=
  let h := if body.isEmpty then [] else markdown_to_html body
  if h.isEmpty then h else h ++ seeMoreLink url

/-- Python `tag_name.lstrip('v')`: drops every leading `v`. -/
def pyLstripV (t : List Char) : List Char := t.dropWhile (fun c => c == 'v')

/-- Modelled from the spec's words: strip a single optional leading `v`
marker from the tag. -/
def specStripOneV (t : List Char) : List Char :=
  match t with
  | 'v' :: rest => rest
  | l => l

/-- The `<item>` block the assembler emits for the selected release; the
version placeholder is the tag with its leading `v`s stripped, re-read at each
interpolation as the f-strings do. -/
def itemLines (r : Release) (a : Asset) (fd : List Char) : List (List Char) :=
  ["    <item>".data,
   "      <title>Version ".data ++ (pyLstripV r.tag_name ++ "</title>".data),
   "      <link>".data ++ (r.html_url ++ "</link>".data),
   "      <sparkle:version>".data ++ (pyLstripV r.tag_name ++ "</sparkle:version>".data),
   "      <sparkle:shortVersionString>".data ++
     (pyLstripV r.tag_name ++ "</sparkle:shortVersionString>".data),
   "      <description><![CDATA[".data,
   "        ".data ++ renderNotes r.body r.html_url,
   "      ]]></description>".data,
   "      <pubDate>".data ++ (fd ++ "</pubDate>".data),
   "      <sparkle:minimumSystemVersion>12.0</sparkle:minimumSystemVersion>".data,
   "      <enclosure ".data,
   "        url=\"".data ++ (a.browser_download_url ++ "\" ".data),
   "        sparkle:version=\"".data ++ (pyLstripV r.tag_name ++ "\" ".data),
   "        sparkle:shortVersionString=\"".data ++ (pyLstripV r.tag_name ++ "\" ".data),
   "        length=\"".data ++ (Nat.toDigits 10 a.size ++ "\" ".data),
   "        type=\"application/octet-stream\" />".data,
   "    </item>".data]

/-- The fixed channel header of the document, with the owner and repository
name interpolated into the link line. -/
def headerLines (owner name : List Char) : List (List Char) :=
  ["<?xml version=\"1.0\" encoding=\"utf-8\"?>".data,
   "<rss version=\"2.0\" xmlns:sparkle=\"http://www.andymatuschak.org/xml-namespaces/sparkle\" xmlns:dc=\"http://purl.org/dc/elements/1.1/\">".data,
   "  <channel>".data,
   "    <title>XKey Updates</title>".data,
   "    <link>https://".data ++ (owner ++ (".github.io/".data ++ (name ++ "/appcast.xml</link>".data))),
   "    <description>XKey - Vietnamese Input Method for macOS</description>".data,
   "    <language>vi</language>".data]

/-- The closing lines of the document. -/
def footerLines : List (List Char) :=
  ["  </channel>".data, "</rss>".data]

/-- Warning printed when a non-draft, non-prerelease release has no DMG. -/
def warnNoDmg (tag : List Char) : List Char :=
  "Warning: No DMG found for release ".data ++ tag

/-- Warning printed when no item was added. -/
def noValidWarn : List Char := "Warning: No valid releases found".data

/-- The release loop of `generate_appcast_xml`: skip drafts and prereleases
silently, warn and continue on a missing DMG, and stop at the first release
with a qualifying asset. Returns the warnings and the selected release with
its asset. -/
def processReleases : List Release → List (List Char) × Option (Release × Asset)
  | [] => ([], none)
  | r :: rest =>
    if r.draft || r.prerelease then processReleases rest
    else
      match find_dmg_asset r.assets with
      | none =>
        let p := processReleases rest
        (warnNoDmg r.tag_name :: p.1, p.2)
      | some a => ([], some (r, a))

/-- `release.get('published_at', release.get('created_at'))`. -/
def pubDateOf (r : Release) : Option (List Char) :=
  match r.published_at with
  | some d => some d
  | none => r.created_at

/-- The source's `generate_appcast_xml`, with the network fetch replaced by
the release-list parameter and the `repo.split('/')` pieces passed as `owner`
and `name`. Returns the warning lines and the XML lines (joined with newlines
by the script); a missing or malformed publish date becomes an `Except.error`,
modelling the uncaught exception. -/
def generate_appcast_xml (owner name : List Char) (releases : List Release) :
    Except (List Char) (List (List Char) × List (List Char)) :=
  match (processReleases releases).2 with
  | none =>
    .ok ((processReleases releases).1 ++ [noValidWarn], headerLines owner name ++ footerLines)
  | some (r, a) =>
    match pubDateOf r with
    | none => .error "TypeError".data
    | some pd =>
      match format_rfc822_date pd with
      | none => .error "ValueError".data
      | some fd =>
        .ok ((processReleases releases).1,
          headerLines owner name ++ (itemLines r a fd ++ footerLines))

/-- A release qualifies when it is neither draft nor prerelease and has a
qualifying asset. -/
def qualifies (r : Release) : Bool :=
  !r.draft && !r.prerelease && (find_dmg_asset r.assets).isSome

/-- The opening tag line of an item block. -/
def itemOpen : List Char := "    <item>".data

/-- Number of `<item>` elements in the emitted lines. -/
def itemCount : List (List Char) → Nat
  | [] => 0
  | l :: rest => (if l = itemOpen then 1 else 0) + itemCount rest

/-- XML lines of a run, empty on a crash; used to state concrete outputs. -/
def linesOf (e : Except (List Char) (List (List Char) × List (List Char))) : List (List Char) :=
  match e with
  | .ok p => p.2
  | .error _ => []

/-- Asset fixture named exactly as the expected installer. -/
def xkAsset : Asset := ⟨"XKey.dmg".data, "https://dl/XKey.dmg".data, 1000⟩

/-- Asset fixture for the excluded input-method variant package. -/
def imAsset : Asset := ⟨"XKeyIM.dmg".data, "https://dl/XKeyIM.dmg".data, 2000⟩

/-- Asset fixture for a differently named package. -/
def otherAsset : Asset := ⟨"Other.dmg".data, "https://dl/Other.dmg".data, 3000⟩

/-- Release fixture matching the spec's end-to-end example. -/
def relGood : Release :=
  ⟨"v2.0.0".data, "**Hello**".data, false, false, some "2024-01-15T10:00:00Z".data, none,
   "https://gh/rel/v2.0.0".data, [xkAsset]⟩

/-- Release fixture whose tag consists only of marker characters. -/
def relVV : Release :=
  ⟨"vv".data, [], false, false, some "2024-01-15T10:00:00Z".data, none, "u".data, [xkAsset]⟩

/-- Release fixture whose notes are a single newline. -/
def relNL : Release :=
  ⟨"v1.0".data, [nlc], false, false, some "2024-01-15T10:00:00Z".data, none, "u2".data, [xkAsset]⟩

/-- Draft release fixture. -/
def relDraft : Release :=
  ⟨"v9.9".data, [], true, false, some "2024-01-15T10:00:00Z".data, none, "u3".data, [xkAsset]⟩

/-- Formatted date of the fixtures' publish timestamp. -/
def rfc0 : List Char := "Mon, 15 Jan 2024 10:00:00 +0000".data

/-- Expected XML lines for a run over `[relGood]`. -/
def goodLines : List (List Char) :=
  headerLines "o".data "x".data ++ (itemLines relGood xkAsset rfc0 ++ footerLines)

end XKeyAppcast

namespace XKeyAppcast

/-- C6. The claim states the fenced-block input renders to bare
`<pre><code>code here</code></pre>`; on the code, the final line pass wraps
that single line in a paragraph element, so the claimed output is wrong. -/
theorem fenced_block_counterexample :
    markdown_to_html "```\ncode here\n```".data =
      "<p><pre><code>code here</code></pre></p>".data ∧
    markdown_to_html "```\ncode here\n```".data ≠
      "<pre><code>code here</code></pre>".data := by
  constructor
  · rfl
  · decide

/-- C6 (amended). The fenced block becomes a `<pre><code>` element with the
interior text verbatim, and the renderer's final pass wraps the resulting
single line in a paragraph element. -/
theorem fenced_block_wrapped_output :
    markdown_to_html "```\ncode here\n```".data =
      "<p>".data ++ ("<pre><code>".data ++ ("code here".data ++ "</code></pre>".data) ++ "</p>".data) := by
  rfl

/-- C7. The claim states `**bold**` renders to bare `<strong>bold</strong>`
(and likewise for the other emphasis examples); on the code, the final line
pass wraps each of these single-line outputs in a paragraph element. -/
theorem emphasis_counterexample :
    markdown_to_html "**bold**".data = "<p><strong>bold</strong></p>".data ∧
    markdown_to_html "**bold**".data ≠ "<strong>bold</strong>".data := by
  constructor
  · rfl
  · decide

/-- C7 (amended). The emphasis conversions produce `<strong>`, `<em>` and
`<strong><em>` as claimed, wrapped in a paragraph element by the final pass. -/
theorem emphasis_wrapped_output :
    markdown_to_html "**bold**".data = "<p><strong>bold</strong></p>".data ∧
    markdown_to_html "*italic*".data = "<p><em>italic</em></p>".data ∧
    markdown_to_html "***both***".data = "<p><strong><em>both</em></strong></p>".data := by
  refine ⟨rfl, rfl, rfl⟩

/-- C8. The claim writes the produced output as the concatenation
`<ul><li>item one</li><li>item two</li></ul>`; the code joins the emitted
lines with newline separators, so the output differs from the claimed string. -/
theorem list_output_counterexample :
    markdown_to_html "- item one\n- item two\n".data =
      "<ul>\n<li>item one</li>\n<li>item two</li>\n</ul>".data ∧
    markdown_to_html "- item one\n- item two\n".data ≠
      "<ul><li>item one</li><li>item two</li></ul>".data := by
  constructor
  · rfl
  · decide

/-- C8 (amended). The two list lines followed by a blank line emit exactly
`<ul>`, the two items and `</ul>`, joined with newlines; the blank line emits
nothing; a still-open unordered list is closed as soon as a non-list line is
seen, before that line produces output; and lists open at end-of-input are
closed after the last line. -/
theorem list_block_closing :
    markdown_to_html "- item one\n- item two\n".data =
      "<ul>\n<li>item one</li>\n<li>item two</li>\n</ul>".data ∧
    processLines (splitNL "- item one\n- item two\n".data) false false =
      ["<ul>".data, "<li>item one</li>".data, "<li>item two</li>".data, "</ul>".data] ∧
    (∀ l ls inOl, isULline l = false → olRest l = none →
      processLines (l :: ls) true inOl = "</ul>".data :: processLines (l :: ls) false inOl) ∧
    (∀ inUl inOl, processLines [] inUl inOl =
      (if inUl then ["</ul>".data] else []) ++ (if inOl then ["</ol>".data] else [])) := by
  refine ⟨rfl, rfl, ?_, fun _ _ => rfl⟩
  intro l ls inOl h1 h2
  simp only [processLines, h1, h2, Bool.false_eq_true, if_false]
  rfl

/-- Witness for the closing clause of `list_block_closing` at a concrete
non-list line. -/
theorem list_block_closing_witness :
    processLines ["x".data] true false = "</ul>".data :: processLines ["x".data] false false :=
  list_block_closing.2.2.1 "x".data [] false (by decide) (by decide)

/-- C10. Every non-blank line that is neither an unordered- nor an
ordered-list item is wrapped in a paragraph element by the final pass, header
output included: `# Title` renders to `<p><h1>Title</h1></p>`. -/
theorem paragraph_wrap_final_pass :
    markdown_to_html "# Title".data = "<p><h1>Title</h1></p>".data ∧
    (∀ l ls, isULline l = false → olRest l = none → (pyStrip l).isEmpty = false →
      processLines (l :: ls) false false =
        ("<p>".data ++ (l ++ "</p>".data)) :: processLines ls false false) := by
  refine ⟨rfl, ?_⟩
  intro l ls h1 h2 h3
  simp only [processLines, h1, h2, h3, Bool.false_eq_true, if_false]
  rfl

/-- Witness for the paragraph clause of `paragraph_wrap_final_pass` at a
concrete line. -/
theorem paragraph_wrap_final_pass_witness :
    processLines ["hey".data] false false =
      ("<p>".data ++ ("hey".data ++ "</p>".data)) :: processLines [] false false :=
  paragraph_wrap_final_pass.2 "hey".data [] (by decide) (by decide) (by decide)

/-- C9. The claim states the "see full notes" link is appended exactly when
the release's notes are non-empty; a body consisting of one newline is
non-empty, yet renders to the empty string, so no link is appended and the
emitted description is bare padding. -/
theorem notes_link_counterexample :
    ([nlc] : List Char) ≠ [] ∧
    renderNotes [nlc] "u2".data = [] ∧
    containsSub "</a>".data (renderNotes [nlc] "u2".data) = false ∧
    ("        ".data ++ renderNotes relNL.body relNL.html_url) ∈
      linesOf (generate_appcast_xml "o".data "n".data [relNL]) ∧
    renderNotes relNL.body relNL.html_url = [] := by
  refine ⟨by decide, by decide, by decide, ?_, by decide⟩
  decide

/-- Helper: a list is a prefix of itself followed by anything. -/
theorem begins_self_append : ∀ p t : List Char, begins p (p ++ t) = true := by
  intro p t
  induction p with
  | nil => rfl
  | cons c cs ih => simp [begins, ih]

/-- C9 (amended). The fixed link is a suffix of the assembled description
exactly when the body is truthy and its rendering is truthy: the code tests
the rendered HTML, not the raw notes. -/
theorem notes_link_iff_rendered_nonempty (body url : List Char) :
    endsWith (seeMoreLink url) (renderNotes body url) = true ↔
      (body ≠ [] ∧ markdown_to_html body ≠ []) := by
  have hsm : seeMoreLink url ≠ [] := by simp [seeMoreLink]
  have hnil : endsWith (seeMoreLink url) [] = false := by
    unfold endsWith
    cases hrev : (seeMoreLink url).reverse with
    | nil => exact absurd (by simpa using congrArg List.reverse hrev) hsm
    | cons c cs => rfl
  unfold renderNotes
  cases body with
  | nil =>
    simp only [List.isEmpty_nil, if_true]
    simp [hnil]
  | cons b bs =>
    simp only [List.isEmpty_cons, Bool.false_eq_true, if_false]
    cases hm : markdown_to_html (b :: bs) with
    | nil =>
      simp [hnil]
    | cons m ms =>
      simp only [List.isEmpty_cons, Bool.false_eq_true, if_false]
      constructor
      · intro _
        exact ⟨by simp, by simp [hm]⟩
      · intro _
        unfold endsWith
        rw [List.reverse_append]
        exact begins_self_append _ _

/-- C3. The asset selector returns the first asset named exactly `XKey.dmg`
when one exists; otherwise the first asset whose name ends in `.dmg` and does
not contain `IM`; otherwise `none`. Every returned asset comes from the list
and satisfies one of the two name tests, so a `.dmg` asset containing the
exclusion substring is never chosen as fallback. -/
theorem find_dmg_asset_selection (assets : List Asset) :
    (∀ a, find_dmg_asset assets = some a →
      a ∈ assets ∧ (a.name = "XKey.dmg".data ∨
        (endsWith ".dmg".data a.name = true ∧ containsSub "IM".data a.name = false))) ∧
    ((∃ a ∈ assets, a.name = "XKey.dmg".data) →
      ∃ b, find_dmg_asset assets = some b ∧ b.name = "XKey.dmg".data) ∧
    ((∀ a ∈ assets, a.name ≠ "XKey.dmg".data) →
      find_dmg_asset assets = assets.find? fallbackOK) ∧
    ((∀ a ∈ assets, a.name ≠ "XKey.dmg".data ∧ fallbackOK a = false) →
      find_dmg_asset assets = none) := by
  refine ⟨?_, ?_, ?_, ?_⟩
  · intro a ha
    unfold find_dmg_asset at ha
    cases hx : assets.find? isXKeyName with
    | some b =>
      rw [hx] at ha
      cases ha
      have hb := List.find?_some hx
      refine ⟨List.mem_of_find?_eq_some hx, Or.inl ?_⟩
      simpa [isXKeyName] using hb
    | none =>
      rw [hx] at ha
      have hb := List.find?_some ha
      refine ⟨List.mem_of_find?_eq_some ha, Or.inr ?_⟩
      simpa [fallbackOK] using hb
  · rintro ⟨a, hmem, hname⟩
    unfold find_dmg_asset
    cases hx : assets.find? isXKeyName with
    | some b =>
      have hb := List.find?_some hx
      exact ⟨b, rfl, by simpa [isXKeyName] using hb⟩
    | none =>
      have := List.find?_eq_none.mp hx a hmem
      exact absurd (by simpa [isXKeyName] using hname) this
  · intro hall
    unfold find_dmg_asset
    have hx : assets.find? isXKeyName = none := by
      refine List.find?_eq_none.mpr fun a hmem => ?_
      simpa [isXKeyName] using hall a hmem
    rw [hx]
  · intro hall
    unfold find_dmg_asset
    have hx : assets.find? isXKeyName = none := by
      refine List.find?_eq_none.mpr fun a hmem => ?_
      simpa [isXKeyName] using (hall a hmem).1
    rw [hx]
    refine List.find?_eq_none.mpr fun a hmem => ?_
    simp [(hall a hmem).2]

/-- Witness for `find_dmg_asset_selection`: with the exact-name asset listed
after the variant and another `.dmg`, the exact name is still chosen. -/
theorem find_dmg_asset_selection_witness :
    ∃ b, find_dmg_asset [imAsset, otherAsset, xkAsset] = some b ∧ b.name = "XKey.dmg".data :=
  (find_dmg_asset_selection [imAsset, otherAsset, xkAsset]).2.1
    ⟨xkAsset, by decide, by decide⟩

/-- Helper: the release selected by the loop is the first qualifying release,
its asset comes from the selector, and it is neither draft nor prerelease. -/
theorem processReleases_sel :
    ∀ (rs : List Release) (r : Release) (a : Asset),
      (processReleases rs).2 = some (r, a) →
        rs.find? qualifies = some r ∧ find_dmg_asset r.assets = some a ∧
          r.draft = false ∧ r.prerelease = false := by
  intro rs
  induction rs with
  | nil => intro r a h; exact absurd h (by simp [processReleases])
  | cons r0 rest ih =>
    intro r a h
    by_cases hd : (r0.draft || r0.prerelease) = true
    · have hq : qualifies r0 = false := by
        rcases Bool.or_eq_true_iff.mp hd with h1 | h1 <;> simp [qualifies, h1]
      rw [List.find?_cons_of_neg _ (by simp [hq])]
      have hh : (processReleases rest).2 = some (r, a) := by
        simpa [processReleases, hd] using h
      exact ih r a hh
    · rw [Bool.not_eq_true] at hd
      cases hf : find_dmg_asset r0.assets with
      | none =>
        have hq : qualifies r0 = false := by simp [qualifies, hf]
        rw [List.find?_cons_of_neg _ (by simp [hq])]
        have hh : (processReleases rest).2 = some (r, a) := by
          simpa [processReleases, hd, hf] using h
        exact ih r a hh
      | some a0 =>
        have hq : qualifies r0 = true := by
          rcases Bool.or_eq_false_iff.mp hd with ⟨h1, h2⟩
          simp [qualifies, h1, h2, hf]
        have hh : (r0, a0) = (r, a) := by
          simpa [processReleases, hd, hf] using h
        cases hh
        rcases Bool.or_eq_false_iff.mp hd with ⟨h1, h2⟩
        exact ⟨by rw [List.find?_cons_of_pos _ hq], hf, h1, h2⟩

/-- Helper: the loop selects nothing exactly when no release qualifies. -/
theorem processReleases_none :
    ∀ rs : List Release, (processReleases rs).2 = none ↔ rs.find? qualifies = none := by
  intro rs
  induction rs with
  | nil => simp [processReleases]
  | cons r0 rest ih =>
    by_cases hd : (r0.draft || r0.prerelease) = true
    · have hq : qualifies r0 = false := by
        rcases Bool.or_eq_true_iff.mp hd with h1 | h1 <;> simp [qualifies, h1]
      rw [List.find?_cons_of_neg _ (by simp [hq])]
      simpa [processReleases, hd] using ih
    · rw [Bool.not_eq_true] at hd
      rcases Bool.or_eq_false_iff.mp hd with ⟨h1, h2⟩
      cases hf : find_dmg_asset r0.assets with
      | none =>
        have hq : qualifies r0 = false := by simp [qualifies, hf]
        rw [List.find?_cons_of_neg _ (by simp [hq])]
        simpa [processReleases, hd, hf] using ih
      | some a0 =>
        have hq : qualifies r0 = true := by simp [qualifies, h1, h2, hf]
        rw [List.find?_cons_of_pos _ hq]
        simp [processReleases, hd, hf]

/-- Helper: a first qualifying release is selected together with some asset. -/
theorem find?_qualifies_sel (rs : List Release) (r : Release)
    (h : rs.find? qualifies = some r) :
    ∃ a, (processReleases rs).2 = some (r, a) := by
  cases hs : (processReleases rs).2 with
  | none => rw [(processReleases_none rs).mp hs] at h; cases h
  | some p =>
    obtain ⟨r', a⟩ := p
    obtain ⟨hfind, -, -, -⟩ := processReleases_sel rs r' a hs
    rw [h] at hfind
    injection hfind with hr
    cases hr
    exact ⟨a, rfl⟩

/-- Helper: `itemCount` adds over appended line blocks. -/
theorem itemCount_append : ∀ xs ys, itemCount (xs ++ ys) = itemCount xs + itemCount ys := by
  intro xs ys
  induction xs with
  | nil => simp [itemCount]
  | cons l ls ih => simp [itemCount, ih]; omega

/-- Helper: lines differing from `itemOpen` at some index differ from it. -/
theorem ne_itemOpen_pre (pre rest : List Char) (i : Nat) (hi : i < pre.length)
    (hne : pre.getD i ' ' ≠ itemOpen.getD i ' ') : pre ++ rest ≠ itemOpen := by
  intro he
  exact hne (by rw [← he, List.getD_append _ _ _ _ hi])

/-- Helper: unfolding equation of `itemCount` on a line. -/
theorem itemCount_cons (l : List Char) (ls : List (List Char)) :
    itemCount (l :: ls) = (if l = itemOpen then 1 else 0) + itemCount ls := rfl

/-- Helper: `itemCount` of no lines. -/
theorem itemCount_nil : itemCount [] = 0 := rfl

/-- Helper: an item block contains exactly one `<item>` opening line. -/
theorem itemCount_item : ∀ (r : Release) (a : Asset) (fd : List Char),
    itemCount (itemLines r a fd) = 1 := by
  intro r a fd
  have h2 := ne_itemOpen_pre "      <title>Version ".data
    (pyLstripV r.tag_name ++ "</title>".data) 4 (by decide) (by decide)
  have h3 := ne_itemOpen_pre "      <link>".data
    (r.html_url ++ "</link>".data) 4 (by decide) (by decide)
  have h4 := ne_itemOpen_pre "      <sparkle:version>".data
    (pyLstripV r.tag_name ++ "</sparkle:version>".data) 4 (by decide) (by decide)
  have h5 := ne_itemOpen_pre "      <sparkle:shortVersionString>".data
    (pyLstripV r.tag_name ++ "</sparkle:shortVersionString>".data) 4 (by decide) (by decide)
  have h7 := ne_itemOpen_pre "        ".data
    (renderNotes r.body r.html_url) 4 (by decide) (by decide)
  have h9 := ne_itemOpen_pre "      <pubDate>".data
    (fd ++ "</pubDate>".data) 4 (by decide) (by decide)
  have h12 := ne_itemOpen_pre "        url=\"".data
    (a.browser_download_url ++ "\" ".data) 4 (by decide) (by decide)
  have h13 := ne_itemOpen_pre "        sparkle:version=\"".data
    (pyLstripV r.tag_name ++ "\" ".data) 4 (by decide) (by decide)
  have h14 := ne_itemOpen_pre "        sparkle:shortVersionString=\"".data
    (pyLstripV r.tag_name ++ "\" ".data) 4 (by decide) (by decide)
  have h15 := ne_itemOpen_pre "        length=\"".data
    (Nat.toDigits 10 a.size ++ "\" ".data) 4 (by decide) (by decide)
  unfold itemLines
  rw [itemCount_cons, itemCount_cons, itemCount_cons, itemCount_cons, itemCount_cons,
    itemCount_cons, itemCount_cons, itemCount_cons, itemCount_cons, itemCount_cons,
    itemCount_cons, itemCount_cons, itemCount_cons, itemCount_cons, itemCount_cons,
    itemCount_cons, itemCount_cons, itemCount_nil]
  rw [if_pos (show ("    <item>".data : List Char) = itemOpen from rfl),
    if_neg h2, if_neg h3, if_neg h4, if_neg h5,
    if_neg (show ("      <description><![CDATA[".data : List Char) ≠ itemOpen by decide),
    if_neg h7,
    if_neg (show ("      ]]></description>".data : List Char) ≠ itemOpen by decide),
    if_neg h9,
    if_neg (show
      ("      <sparkle:minimumSystemVersion>12.0</sparkle:minimumSystemVersion>".data :
        List Char) ≠ itemOpen by decide),
    if_neg (show ("      <enclosure ".data : List Char) ≠ itemOpen by decide),
    if_neg h12, if_neg h13, if_neg h14, if_neg h15,
    if_neg (show ("        type=\"application/octet-stream\" />".data : List Char) ≠ itemOpen
      by decide),
    if_neg (show ("    </item>".data : List Char) ≠ itemOpen by decide)]

/-- Helper: the channel header contains no `<item>` opening line. -/
theorem itemCount_header : ∀ o n, itemCount (headerLines o n) = 0 := by
  intro o n
  have h5 := ne_itemOpen_pre "    <link>https://".data
    (o ++ (".github.io/".data ++ (n ++ "/appcast.xml</link>".data))) 5 (by decide) (by decide)
  unfold headerLines
  rw [itemCount_cons, itemCount_cons, itemCount_cons, itemCount_cons, itemCount_cons,
    itemCount_cons, itemCount_cons, itemCount_nil]
  rw [if_neg (show ("<?xml version=\"1.0\" encoding=\"utf-8\"?>".data : List Char) ≠ itemOpen
      by decide),
    if_neg (show
      ("<rss version=\"2.0\" xmlns:sparkle=\"http://www.andymatuschak.org/xml-namespaces/sparkle\" xmlns:dc=\"http://purl.org/dc/elements/1.1/\">".data :
        List Char) ≠ itemOpen by decide),
    if_neg (show ("  <channel>".data : List Char) ≠ itemOpen by decide),
    if_neg (show ("    <title>XKey Updates</title>".data : List Char) ≠ itemOpen by decide),
    if_neg h5,
    if_neg (show
      ("    <description>XKey - Vietnamese Input Method for macOS</description>".data :
        List Char) ≠ itemOpen by decide),
    if_neg (show ("    <language>vi</language>".data : List Char) ≠ itemOpen by decide)]

/-- Helper: the footer contains no `<item>` opening line. -/
theorem itemCount_footer : itemCount footerLines = 0 := by decide

/-- C1. On every run that produces a document, the document has at most one
item; a selected release is the first in received order that is neither draft
nor prerelease and has a qualifying asset, its item block is built from it,
and when nothing is selected the document has no item at all; a first
qualifying release is always selected. -/
theorem appcast_single_item (o n : List Char) (rs : List Release)
    (ws lines : List (List Char))
    (h : generate_appcast_xml o n rs = .ok (ws, lines)) :
    itemCount lines ≤ 1 ∧
    (∀ r a, (processReleases rs).2 = some (r, a) →
      rs.find? qualifies = some r ∧ r.draft = false ∧ r.prerelease = false ∧
        ∃ fd, lines = headerLines o n ++ (itemLines r a fd ++ footerLines)) ∧
    ((processReleases rs).2 = none → itemCount lines = 0) ∧
    (∀ r, rs.find? qualifies = some r → ∃ a, (processReleases rs).2 = some (r, a)) := by
  have hzero : itemCount (headerLines o n ++ footerLines) = 0 := by
    rw [itemCount_append, itemCount_header, itemCount_footer]
  cases hp : (processReleases rs).2 with
  | none =>
    simp only [generate_appcast_xml, hp, Except.ok.injEq, Prod.mk.injEq] at h
    obtain ⟨-, hlines⟩ := h
    refine ⟨by rw [← hlines, hzero]; omega, ?_, fun _ => by rw [← hlines, hzero], ?_⟩
    · intro r a hsel; cases hsel
    · intro r hfind
      obtain ⟨a, ha⟩ := find?_qualifies_sel rs r hfind
      rw [hp] at ha; cases ha
  | some p =>
    obtain ⟨r0, a0⟩ := p
    obtain ⟨hfind0, hdmg0, hdr0, hpr0⟩ := processReleases_sel rs r0 a0 hp
    cases hpd : pubDateOf r0 with
    | none => simp [generate_appcast_xml, hp, hpd] at h
    | some pd =>
      cases hfd : format_rfc822_date pd with
      | none => simp [generate_appcast_xml, hp, hpd, hfd] at h
      | some fd =>
        simp only [generate_appcast_xml, hp, hpd, hfd, Except.ok.injEq, Prod.mk.injEq] at h
        obtain ⟨-, hlines⟩ := h
        have hcount : itemCount lines = 1 := by
          rw [← hlines, itemCount_append, itemCount_append, itemCount_header,
            itemCount_item, itemCount_footer]
        refine ⟨by omega, ?_, ?_, ?_⟩
        · intro r a hsel
          injection hsel with hsel
          injection hsel with hr ha
          cases hr; cases ha
          exact ⟨hfind0, hdr0, hpr0, fd, hlines.symm⟩
        · intro hnone; cases hnone
        · intro r hfind
          rw [hfind0] at hfind
          injection hfind with hr
          cases hr
          exact ⟨a0, rfl⟩

/-- Witness for `appcast_single_item` on a single qualifying release. -/
theorem appcast_single_item_witness :
    List.find? qualifies [relGood] = some relGood ∧
    relGood.draft = false ∧ relGood.prerelease = false ∧
    ∃ fd, goodLines =
      headerLines "o".data "x".data ++ (itemLines relGood xkAsset fd ++ footerLines) :=
  (appcast_single_item "o".data "x".data [relGood] [] goodLines rfl).2.1 relGood xkAsset rfl

/-- C4. When no release qualifies (the empty list included), the run still
returns the well-formed skeleton document: exactly the channel header with its
metadata lines plus the closing lines, zero item elements, and the
no-valid-release warning is emitted. -/
theorem empty_feed_on_no_qualifying (o n : List Char) (rs : List Release)
    (h : ∀ r ∈ rs, qualifies r = false) :
    ∃ ws, generate_appcast_xml o n rs = .ok (ws, headerLines o n ++ footerLines) ∧
      noValidWarn ∈ ws ∧
      itemCount (headerLines o n ++ footerLines) = 0 ∧
      "    <title>XKey Updates</title>".data ∈ headerLines o n ∧
      "    <description>XKey - Vietnamese Input Method for macOS</description>".data ∈
        headerLines o n ∧
      "    <language>vi</language>".data ∈ headerLines o n ∧
      "  </channel>".data ∈ footerLines ∧ "</rss>".data ∈ footerLines := by
  have hfind : rs.find? qualifies = none :=
    List.find?_eq_none.mpr (by intro x hx; simp [h x hx])
  have hp : (processReleases rs).2 = none := (processReleases_none rs).mpr hfind
  refine ⟨(processReleases rs).1 ++ [noValidWarn], ?_, by simp, ?_, ?_, ?_, ?_, ?_, ?_⟩
  · simp only [generate_appcast_xml, hp]
  · rw [itemCount_append, itemCount_header, itemCount_footer]
  · simp [headerLines]
  · simp [headerLines]
  · simp [headerLines]
  · simp [footerLines]
  · simp [footerLines]

/-- Witness for `empty_feed_on_no_qualifying` on a single draft release. -/
theorem empty_feed_on_no_qualifying_witness :
    ∃ ws, generate_appcast_xml "o".data "x".data [relDraft] =
        .ok (ws, headerLines "o".data "x".data ++ footerLines) ∧
      noValidWarn ∈ ws ∧
      itemCount (headerLines "o".data "x".data ++ footerLines) = 0 ∧
      "    <title>XKey Updates</title>".data ∈ headerLines "o".data "x".data ∧
      "    <description>XKey - Vietnamese Input Method for macOS</description>".data ∈
        headerLines "o".data "x".data ∧
      "    <language>vi</language>".data ∈ headerLines "o".data "x".data ∧
      "  </channel>".data ∈ footerLines ∧ "</rss>".data ∈ footerLines :=
  empty_feed_on_no_qualifying "o".data "x".data [relDraft] (by decide)

/-- C2. The claim states the emitted version is the tag with a single
optional leading `v` stripped and non-empty; the code strips every leading
`v`, so the tag `vv` is emitted as the empty version string, not `v`. -/
theorem lstrip_version_counterexample :
    pyLstripV "vv".data = [] ∧
    specStripOneV "vv".data = "v".data ∧
    pyLstripV "vv".data ≠ specStripOneV "vv".data ∧
    ("      <sparkle:version>".data ++ (pyLstripV "vv".data ++ "</sparkle:version>".data)) ∈
      linesOf (generate_appcast_xml "o".data "n".data [relVV]) := by
  refine ⟨by decide, by decide, by decide, ?_⟩
  decide

/-- C2 (amended). The emitted version string is the release tag with every
leading `v` stripped — so `v1.2.3` gives `1.2.3` and `1.2.3` stays unchanged —
and it may be empty when the tag consists only of `v`s. -/
theorem version_strips_all_leading_v (o n : List Char) (rs : List Release)
    (ws lines : List (List Char)) (r : Release) (a : Asset)
    (h : generate_appcast_xml o n rs = .ok (ws, lines))
    (hsel : (processReleases rs).2 = some (r, a)) :
    ("      <sparkle:version>".data ++ (pyLstripV r.tag_name ++ "</sparkle:version>".data)) ∈
      lines ∧
    pyLstripV "v1.2.3".data = "1.2.3".data ∧ pyLstripV "1.2.3".data = "1.2.3".data := by
  refine ⟨?_, by decide, by decide⟩
  cases hpd : pubDateOf r with
  | none => simp [generate_appcast_xml, hsel, hpd] at h
  | some pd =>
    cases hfd : format_rfc822_date pd with
    | none => simp [generate_appcast_xml, hsel, hpd, hfd] at h
    | some fd =>
      simp only [generate_appcast_xml, hsel, hpd, hfd, Except.ok.injEq, Prod.mk.injEq] at h
      obtain ⟨-, hlines⟩ := h
      rw [← hlines]
      refine List.mem_append_right _ (List.mem_append_left _ ?_)
      unfold itemLines
      exact .tail _ (.tail _ (.tail _ (.head _)))

/-- Witness for `version_strips_all_leading_v` on the fixture run. -/
theorem version_strips_all_leading_v_witness :
    ("      <sparkle:version>".data ++
      (pyLstripV relGood.tag_name ++ "</sparkle:version>".data)) ∈ goodLines ∧
    pyLstripV "v1.2.3".data = "1.2.3".data ∧ pyLstripV "1.2.3".data = "1.2.3".data :=
  version_strips_all_leading_v "o".data "x".data [relGood] [] goodLines relGood xkAsset rfl rfl

/-- Helper: the `Z` replacement distributes over appending. -/
theorem replaceZ_app : ∀ x y : List Char, replaceZ (x ++ y) = replaceZ x ++ replaceZ y := by
  intro x y
  induction x with
  | nil => rfl
  | cons c cs ih =>
    show replaceZ (c :: (cs ++ y)) = replaceZ (c :: cs) ++ replaceZ y
    simp only [replaceZ]
    by_cases hc : (c == 'Z') = true
    · rw [if_pos hc, if_pos hc, ih, List.append_assoc]
    · rw [if_neg hc, if_neg hc, ih, List.cons_append]

/-- Helper: the `Z` replacement leaves `Z`-free text unchanged. -/
theorem replaceZ_noZ : ∀ l : List Char, 'Z' ∉ l → replaceZ l = l := by
  intro l
  induction l with
  | nil => intro _; rfl
  | cons c cs ih =>
    intro h
    have hc : c ≠ 'Z' := fun e => by subst e; exact h (List.mem_cons_self _ _)
    simp only [replaceZ]
    rw [if_neg (by simp [hc]), ih (fun hm => h (List.mem_cons_of_mem c hm))]

/-- Helper: the last element of a list is a member. -/
theorem getLast?_memC {l : List Char} {c : Char} (h : l.getLast? = some c) : c ∈ l := by
  have hd := List.dropLast_append_getLast? (l := l) c (by simp [Option.mem_def, h])
  rw [← hd]
  exact List.mem_append_right _ (List.mem_singleton.mpr rfl)

/-- C5. The claim describes the formatter as replacing only a literal `Z`
suffix before parsing; the code replaces every `Z`, and the difference is
observable: at `2024-01-15T10:00Z:00` the interior `Z` becomes `+00:00`,
yielding the valid timestamp `2024-01-15T10:00+00:00:00` (an `HH:MM` time
with a `±HH:MM:SS` offset), so the code succeeds where the described
suffix-only pipeline raises. -/
theorem date_replaceZ_counterexample :
    format_rfc822_date "2024-01-15T10:00Z:00".data =
      some "Mon, 15 Jan 2024 10:00:00 +0000".data ∧
    spec_format_rfc822_date "2024-01-15T10:00Z:00".data = none ∧
    replaceZ "2024-01-15T10:00Z:00".data = "2024-01-15T10:00+00:00:00".data ∧
    replaceZsuffix "2024-01-15T10:00Z:00".data = "2024-01-15T10:00Z:00".data ∧
    fromisoformat "2024-01-15T10:00Z:00".data = none := by
  refine ⟨by decide, by decide, by decide, by decide, by decide⟩

/-- C5 (amended). The date formatter replaces every occurrence of `Z` with
`+00:00` — not only a suffix — then parses the result as an ISO-8601
timestamp and renders it in RFC-822 form, failing exactly when the replaced
text does not parse. On every input with no `Z` before the last character the
two replacements coincide, so there the spec's suffix-only description holds,
and the documented example maps to the documented output. -/
theorem date_formatter_replaces_every_Z :
    (∀ l : List Char, 'Z' ∉ l.dropLast →
      format_rfc822_date l = spec_format_rfc822_date l) ∧
    format_rfc822_date "2024-01-15T10:00:00Z".data =
      some "Mon, 15 Jan 2024 10:00:00 +0000".data ∧
    (∀ l : List Char,
      format_rfc822_date l = none ↔ fromisoformat (replaceZ l) = none) := by
  refine ⟨?_, by decide, ?_⟩
  · intro l hzd
    unfold format_rfc822_date spec_format_rfc822_date
    suffices h : replaceZ l = replaceZsuffix l by rw [h]
    by_cases hz : 'Z' ∈ l
    · have hne : l ≠ [] := by intro e; rw [e] at hz; cases hz
      have hlast := List.getLast?_eq_getLast_of_ne_nil hne
      have hsplit : l.dropLast ++ [l.getLast hne] = l :=
        List.dropLast_append_getLast? (l.getLast hne) (by simp [Option.mem_def, hlast])
      have hcz : l.getLast hne = 'Z' := by
        have hz2 : 'Z' ∈ l.dropLast ++ [l.getLast hne] := by rw [hsplit]; exact hz
        rcases List.mem_append.mp hz2 with h1 | h1
        · exact absurd h1 hzd
        · exact (List.mem_singleton.mp h1).symm
      rw [hcz] at hsplit
      calc replaceZ l = replaceZ (l.dropLast ++ ['Z']) := by rw [hsplit]
        _ = l.dropLast ++ utcOff := by
              rw [replaceZ_app, replaceZ_noZ l.dropLast hzd]
              simp [replaceZ]
        _ = replaceZsuffix l := by
              unfold replaceZsuffix
              rw [if_pos (show l.getLast? = some 'Z' by rw [hlast, hcz])]
    · rw [replaceZ_noZ l hz]
      unfold replaceZsuffix
      rw [if_neg]
      intro hl
      exact hz (getLast?_memC hl)
  · intro l
    unfold format_rfc822_date
    cases fromisoformat (replaceZ l) <;> simp

/-- Witness for the agreement clause of `date_formatter_replaces_every_Z` at
the documented example input, whose only `Z` is its last character. -/
theorem date_formatter_replaces_every_Z_witness :
    format_rfc822_date "2024-01-15T10:00:00Z".data =
      spec_format_rfc822_date "2024-01-15T10:00:00Z".data :=
  date_formatter_replaces_every_Z.1 "2024-01-15T10:00:00Z".data (by decide)

end XKeyAppcast
